import Mathlib

/-!
# Verification of the moto X-Ray segment store

Shallow embedding of `moto/xray/models.py` and the ingestion loop of
`moto/xray/responses.py`.

Modelling conventions:
* Unix timestamps (`start_time`, `end_time`, fractional epoch seconds) are
  rationals.  Python's `datetime.fromtimestamp` is a strictly monotone
  injection from timestamps to datetimes, and subtraction of two datetimes
  followed by `.total_seconds()` recovers the difference of the underlying
  timestamps, so dates are represented by the timestamp itself:
  `start_date`/`end_date` comparisons and arithmetic on datetimes become
  comparisons and arithmetic on those rationals.
* Python's `int()` applied to a real number truncates toward zero; it is
  embedded as `pyInt` below.
* `datetime.datetime(1970, 1, 1)` (the epoch) is timestamp `0`.
* `datetime.datetime.now()` in `SegmentCollection.summary` is
  nondeterministic; it is passed in as an explicit `now` argument.
-/

deriving instance DecidableEq for Except

/-- Python's `int()` on a real value: truncation toward zero
(floor for nonnegative arguments, ceiling for negative ones). -/
def pyInt (q : ℚ) : ℤ := if 0 ≤ q then ⌊q⌋ else ⌈q⌉

/-- A JSON scalar as found in a decoded segment document.  Only the shapes
that the validation code can observe are distinguished: the check
`data['in_progress'] == 'false'` in `TraceSegment.from_dict` compares the
JSON value against the Python string `'false'`. -/
inductive JsonVal : Type where
  | jstr (s : String)
  | jbool (b : Bool)
  | jnum (q : ℚ)
  | jnull
deriving DecidableEq

/-- Python equality of a JSON value against the string literal `'false'`
(`data['in_progress'] == 'false'`): only the JSON string `"false"` compares
equal; the boolean `False`, numbers and `null` do not. -/
def JsonVal.pyEqStrFalse : JsonVal → Bool
  | .jstr s => s == "false"
  | _ => false

/-- `TraceSegment` (`models.py` lines 30-53), restricted to the fields the
verified code paths read: `segment_id`, `trace_id`, `start_time`,
`end_time`, `in_progress` and the `**kwargs` catch-all `misc`, of which
only the key set matters (`'error' in seg.misc` etc. in `summary`).
The remaining constructor arguments (`name`, `service`, `user`, `origin`,
`parent_id`, `http`, `aws`, `metadata`, `annotations`, `subsegments`) are
stored but never read by the embedded code, except `name`, kept here
because `from_dict` checks its presence. -/
structure TraceSegment : Type where
  name : String
  segment_id : String
  trace_id : String
  start_time : ℚ
  end_time : Option ℚ
  in_progress : JsonVal
  misc : List String
deriving DecidableEq

/-- `BadSegmentException`.  Modelled from the spec: `moto/xray/exceptions.py`
is not part of the sources; §4.4/§6/§7 of the spec describe the rejection
record as `RejectionRecord{segmentId?, code, message}`, matching the keyword
arguments `seg_id=`, `code=`, `message=` at every raise site in
`models.py`. -/
structure BadSegmentException : Type where
  seg_id : Option String
  code : String
  message : String
deriving DecidableEq

/-- `AWSError`.  Modelled from the spec: `moto/xray/exceptions.py` is not in
the sources; the raise site `AWSError('Not implemented yet - moto',
code='InternalFailure', status=500)` fixes a message, a code and an HTTP
status. -/
structure AWSError : Type where
  message : String
  code : String
  status : ℕ
deriving DecidableEq

/-- A decoded segment document (the `data` dict in
`TraceSegment.from_dict`).  Field presence (`'id' not in data` …) is
`Option.isSome`.  The named fields carry their schema types, since
`from_dict` only tests their presence — except `in_progress`, kept as a raw
`JsonVal` because `from_dict` compares it with the string `'false'`.
`extra` is the key set of all remaining entries of the dict. -/
structure SegmentDoc : Type where
  id : Option String
  name : Option String
  trace_id : Option String
  start_time : Option ℚ
  end_time : Option ℚ
  in_progress : Option JsonVal
  extra : List String
deriving DecidableEq

namespace TraceSegment

/-- `TraceSegment.from_dict` (`models.py` lines 83-100).  The mandatory-arg
checks run in source order; note that the `name`/`trace_id`/`start_time`
loop reuses the message `'Missing segment ID'`.  On success `cls(**data)`
is built: `segment_id` was injected into `data` (line 89), the original
`'id'` key remains in `data` and therefore lands in `**kwargs` (`misc`),
and an absent `in_progress` defaults to `False`. -/
def from_dict (data : SegmentDoc) : Except BadSegmentException TraceSegment :=
  match data.id with
  | none => .error ⟨none, "MissingParam", "Missing segment ID"⟩
  | some seg_id =>
    if data.name.isNone then
      .error ⟨some seg_id, "MissingParam", "Missing segment ID"⟩
    else if data.trace_id.isNone then
      .error ⟨some seg_id, "MissingParam", "Missing segment ID"⟩
    else if data.start_time.isNone then
      .error ⟨some seg_id, "MissingParam", "Missing segment ID"⟩
    else if data.end_time.isNone && data.in_progress.isNone then
      .error ⟨some seg_id, "MissingParam", "Missing end_time or in_progress"⟩
    else if data.end_time.isNone && (data.in_progress.getD .jnull).pyEqStrFalse then
      .error ⟨some seg_id, "MissingParam", "Missing end_time"⟩
    else
      .ok { name := data.name.getD ""
            segment_id := seg_id
            trace_id := data.trace_id.getD ""
            start_time := data.start_time.getD 0
            end_time := data.end_time
            in_progress := data.in_progress.getD (.jbool false)
            misc := "id" :: data.extra }

end TraceSegment

/-- One value of `SegmentCollection._segments` (the per-trace aggregate
dict made by `_new_trace_item`, `models.py` lines 107-114). -/
structure TraceItem : Type where
  start_date : ℚ
  end_date : ℚ
  finished : Bool
  segments : List TraceSegment
deriving DecidableEq

/-- `SegmentCollection._new_trace_item`: both dates start at
`datetime.datetime(1970, 1, 1)`, i.e. timestamp `0`. -/
def newTraceItem : TraceItem :=
  { start_date := 0, end_date := 0, finished := false, segments := [] }

/-- `bisect.insort_left` on a list kept sorted by `TraceSegment.__lt__`
(which compares `start_date`, equivalently `start_time`): the new element
is inserted at the leftmost position that keeps the list sorted, i.e.
before any existing element that is not `<` it.  On sorted input this
linear scan computes exactly the position `bisect_left` finds. -/
def insortLeft (l : List TraceSegment) (x : TraceSegment) : List TraceSegment :=
  match l with
  | [] => [x]
  | y :: ys =>
    if y.start_time < x.start_time then y :: insortLeft ys x
    else x :: y :: ys

/-- The head's `start_date` of a nonempty segment list
(`segments[0].start_date`, defaulting to `0` on the unreachable empty
case). -/
def headStartDate (l : List TraceSegment) : ℚ :=
  (l.head?.map TraceSegment.start_time).getD 0

/-- `SegmentCollection.put_segment` (`models.py` lines 116-128) acting on
the trace item for `segment.trace_id`: sorted insert, then, if the last
element of the sorted list has a non-null `end_time`, mark the trace
finished and set `start_date := segments[0].start_date`,
`end_date := segments[-1].end_date`. -/
def putSegment (t : TraceItem) (s : TraceSegment) : TraceItem :=
  let segs := insortLeft t.segments s
  match segs.getLast? with
  | none => { t with segments := segs }
  | some tail =>
    match tail.end_time with
    | none => { t with segments := segs }
    | some et =>
      { start_date := headStartDate segs
        end_date := et
        finished := true
        segments := segs }

/-- `SegmentCollection._segments`: a `defaultdict` from trace id to trace
item, modelled as an association list in insertion order. -/
structure SegmentCollection : Type where
  traces : List (String × TraceItem)
deriving DecidableEq

namespace SegmentCollection

/-- `self._segments[trace_id]` on a `defaultdict`: the stored item, or a
fresh `_new_trace_item()` if the key is absent. -/
def getOrNew (c : SegmentCollection) (tid : String) : TraceItem :=
  (c.traces.lookup tid).getD newTraceItem

/-- Writing back the (possibly fresh) item for `tid`: replace in place if
the key exists, otherwise append, as a Python dict does. -/
def setTrace (c : SegmentCollection) (tid : String) (t : TraceItem) :
    SegmentCollection :=
  if (c.traces.lookup tid).isSome then
    ⟨c.traces.map fun p => if p.1 = tid then (tid, t) else p⟩
  else
    ⟨c.traces ++ [(tid, t)]⟩

/-- `SegmentCollection.put_segment` on the whole collection: locate or
create the aggregate for `segment.trace_id` and update it. -/
def put_segment (c : SegmentCollection) (s : TraceSegment) : SegmentCollection :=
  c.setTrace s.trace_id (putSegment (c.getOrNew s.trace_id) s)

end SegmentCollection

/-- One entry of the `TraceSummaries` list built by
`SegmentCollection.summary` (`models.py` lines 149-161).  The fields that
the code emits as constant empty dicts/lists (`Annotations`, `Http`,
`ServiceIds`, `Users`) carry no information and are omitted; the constant
scalars are kept. -/
structure TraceSummary : Type where
  Duration : ℤ
  HasError : Bool
  HasFault : Bool
  HasThrottle : Bool
  Id : String
  IsParital : Bool
  ResponseTime : ℕ
deriving DecidableEq

/-- The result envelope of `SegmentCollection.summary`
(`models.py` lines 164-168). -/
structure SummaryResult : Type where
  ApproximateTime : ℤ
  TracesProcessedCount : ℕ
  TraceSummaries : List TraceSummary
deriving DecidableEq

namespace SegmentCollection

/-- The body of the `for tid, trace in self._segments.items()` loop for one
entry: the summary part if the trace passes the filter, else nothing. -/
def summaryPart (start_time end_time : ℚ) (p : String × TraceItem) :
    Option TraceSummary :=
  let tid := p.1
  let trace := p.2
  if trace.finished && decide (start_time < trace.start_date)
      && decide (trace.end_date < end_time) then
    some { Duration := pyInt (trace.end_date - trace.start_date)
           HasError := trace.segments.any fun seg => seg.misc.contains "error"
           HasFault := trace.segments.any fun seg => seg.misc.contains "fault"
           HasThrottle := trace.segments.any fun seg => seg.misc.contains "throttle"
           Id := tid
           IsParital := false
           ResponseTime := 1 }
  else none

/-- `SegmentCollection.summary` (`models.py` lines 133-170).  The method
reads `self._segments` and never writes it; the state is threaded
explicitly, so the returned collection is the input one.  `now` stands for
`datetime.datetime.now()`; `int((now - epoch).total_seconds())` is
`pyInt now`.  `if filter_expression is not None` raises for every non-None
value, the empty string included. -/
def summary (c : SegmentCollection) (start_time end_time : ℚ)
    (filter_expression : Option String) (sampling : Bool) (now : ℚ) :
    Except AWSError (SegmentCollection × SummaryResult) :=
  if filter_expression.isSome then
    .error ⟨"Not implemented yet - moto", "InternalFailure", 500⟩
  else
    let summaries := c.traces.filterMap (summaryPart start_time end_time)
    .ok (c, { ApproximateTime := pyInt now
              TracesProcessedCount := summaries.length
              TraceSummaries := summaries })

end SegmentCollection

/-- A raw trace segment document as handed to
`XRayBackend.process_segment`: either text that `json.loads` rejects with
`ValueError`, or text that decodes to a segment document. -/
inductive RawDoc : Type where
  | malformed
  | parsed (d : SegmentDoc)
deriving DecidableEq

/-- The parsing stage of `XRayBackend.process_segment` (`models.py` lines
184-194): `json.loads` failure becomes `JSONFormatError`; then
`TraceSegment.from_dict` runs and its `BadSegmentException`s propagate
(the `except ValueError` around it catches only `ValueError`, which
`from_dict` does not raise). -/
def parseSegmentDoc (doc : RawDoc) : Except BadSegmentException TraceSegment :=
  match doc with
  | .malformed => .error ⟨none, "JSONFormatError", "Bad JSON data"⟩
  | .parsed d => TraceSegment.from_dict d

/-- `XRayBackend.process_segment` (`models.py` lines 184-200): parse, then
store.  In this embedding `put_segment` is total, so the
`except Exception` wrapper around the store step (which would re-raise as
`InternalFailure` with the segment id) has nothing to catch. -/
def processSegment (c : SegmentCollection) (doc : RawDoc) :
    Except BadSegmentException SegmentCollection :=
  match parseSegmentDoc doc with
  | .error e => .error e
  | .ok seg => .ok (c.put_segment seg)

/-- One iteration of the batch loop of `XRayResponse.trace_segments`
(`responses.py` lines 80-84): process the document against the current
store; on `BadSegmentException` append it to `bad_segments` and keep the
store, otherwise take the updated store. -/
def ingestStep (acc : SegmentCollection × List BadSegmentException)
    (doc : RawDoc) : SegmentCollection × List BadSegmentException :=
  match processSegment acc.1 doc with
  | .ok c' => (c', acc.2)
  | .error e => (acc.1, acc.2 ++ [e])

/-- The batch loop of `XRayResponse.trace_segments` (`responses.py` lines
79-88): each document is processed in order; a `BadSegmentException` is
appended to `bad_segments` and the loop continues; successes mutate the
store and add nothing. -/
def ingest (c : SegmentCollection) (docs : List RawDoc) :
    SegmentCollection × List BadSegmentException :=
  docs.foldl ingestStep (c, [])

/-! ## Sorted-insertion lemmas -/

/-- The sortedness predicate of the `segments` list: non-decreasing in
`start_date` (equivalently, `start_time`). -/
def segsSorted (l : List TraceSegment) : Prop :=
  l.Pairwise fun a b => a.start_time ≤ b.start_time

instance (l : List TraceSegment) : Decidable (segsSorted l) :=
  List.instDecidablePairwise l

theorem mem_insortLeft {l : List TraceSegment} {x a : TraceSegment} :
    a ∈ insortLeft l x ↔ a = x ∨ a ∈ l := by
  induction l with
  | nil => simp [insortLeft]
  | cons y ys ih =>
    by_cases hc : y.start_time < x.start_time
    · simp only [insortLeft, if_pos hc, List.mem_cons, ih]
      tauto
    · simp only [insortLeft, if_neg hc, List.mem_cons]

theorem insortLeft_ne_nil (l : List TraceSegment) (x : TraceSegment) :
    insortLeft l x ≠ [] := by
  cases l with
  | nil => simp [insortLeft]
  | cons y ys =>
    by_cases hc : y.start_time < x.start_time <;>
      simp [insortLeft, hc]

theorem segsSorted_insortLeft {l : List TraceSegment} (x : TraceSegment)
    (h : segsSorted l) : segsSorted (insortLeft l x) := by
  induction l with
  | nil => simp [insortLeft, segsSorted]
  | cons y ys ih =>
    rw [segsSorted, List.pairwise_cons] at h
    obtain ⟨hy, hys⟩ := h
    by_cases hc : y.start_time < x.start_time
    · rw [insortLeft, if_pos hc, segsSorted, List.pairwise_cons]
      refine ⟨?_, ih hys⟩
      intro a ha
      rcases mem_insortLeft.mp ha with rfl | ha
      · exact le_of_lt hc
      · exact hy a ha
    · rw [insortLeft, if_neg hc, segsSorted, List.pairwise_cons]
      push_neg at hc
      refine ⟨?_, ?_⟩
      · intro a ha
        rcases List.mem_cons.mp ha with rfl | ha
        · exact hc
        · exact le_trans hc (hy a ha)
      · rw [List.pairwise_cons]
        exact ⟨hy, hys⟩

theorem insortLeft_eq_takeWhile_dropWhile (l : List TraceSegment)
    (x : TraceSegment) :
    insortLeft l x =
      l.takeWhile (fun y => decide (y.start_time < x.start_time)) ++
        x :: l.dropWhile (fun y => decide (y.start_time < x.start_time)) := by
  induction l with
  | nil => simp [insortLeft]
  | cons y ys ih =>
    by_cases hc : y.start_time < x.start_time
    · rw [insortLeft, if_pos hc, List.takeWhile_cons, List.dropWhile_cons]
      simp [hc, ih]
    · rw [insortLeft, if_neg hc, List.takeWhile_cons, List.dropWhile_cons]
      simp [hc]

theorem putSegment_segments (t : TraceItem) (s : TraceSegment) :
    (putSegment t s).segments = insortLeft t.segments s := by
  simp only [putSegment]
  split
  · rfl
  · split <;> rfl

theorem segsSorted_putSegment {t : TraceItem} (s : TraceSegment)
    (h : segsSorted t.segments) : segsSorted (putSegment t s).segments := by
  rw [putSegment_segments]
  exact segsSorted_insortLeft s h

theorem segsSorted_foldl_putSegment (puts : List TraceSegment) :
    ∀ t : TraceItem, segsSorted t.segments →
      segsSorted ((puts.foldl putSegment t).segments) := by
  induction puts with
  | nil => intro t h; exact h
  | cons s rest ih =>
    intro t h
    exact ih (putSegment t s) (segsSorted_putSegment s h)

/-- C2: along every sequence of `put_segment` calls on one trace, starting
from the fresh trace item, the `segments` list is non-decreasing by
`start_date` after each call (every prefix of calls is itself such a
sequence); and the sorted insert is left-biased: the inserted segment lands
immediately after the elements with strictly smaller `start_date`, hence
before every existing element with an equal `start_date`. -/
theorem c2_sorted_invariant_left_bias :
    (∀ puts : List TraceSegment,
      segsSorted ((puts.foldl putSegment newTraceItem).segments)) ∧
    (∀ (l : List TraceSegment) (x : TraceSegment),
      insortLeft l x =
        l.takeWhile (fun y => decide (y.start_time < x.start_time)) ++
          x :: l.dropWhile (fun y => decide (y.start_time < x.start_time))) := by
  constructor
  · intro puts
    apply segsSorted_foldl_putSegment
    exact List.Pairwise.nil
  · exact insortLeft_eq_takeWhile_dropWhile

/-! ## Reduction lemmas for `putSegment` -/

theorem putSegment_finish (t : TraceItem) (s tail : TraceSegment) (et : ℚ)
    (htail : (insortLeft t.segments s).getLast? = some tail)
    (hend : tail.end_time = some et) :
    putSegment t s =
      { start_date := headStartDate (insortLeft t.segments s)
        end_date := et
        finished := true
        segments := insortLeft t.segments s } := by
  simp only [putSegment, htail, hend]

theorem putSegment_open (t : TraceItem) (s tail : TraceSegment)
    (htail : (insortLeft t.segments s).getLast? = some tail)
    (hend : tail.end_time = none) :
    putSegment t s = { t with segments := insortLeft t.segments s } := by
  simp only [putSegment, htail, hend]

theorem headStartDate_mem {l : List TraceSegment} (h : l ≠ []) :
    headStartDate l ∈ l.map TraceSegment.start_time := by
  cases l with
  | nil => exact absurd rfl h
  | cons y ys => simp [headStartDate]

theorem headStartDate_le_of_sorted {l : List TraceSegment}
    (h : segsSorted l) : ∀ x ∈ l, headStartDate l ≤ x.start_time := by
  cases l with
  | nil => intro x hx; cases hx
  | cons y ys =>
    intro x hx
    rw [segsSorted, List.pairwise_cons] at h
    rcases List.mem_cons.mp hx with rfl | hx
    · simp [headStartDate]
    · simpa [headStartDate] using h.1 x hx

/-! ## Concrete segments used by counterexamples and witnesses -/

/-- A closed segment of trace `"1-0-t"`, running from 10 to 100. -/
def segA : TraceSegment :=
  { name := "a", segment_id := "a", trace_id := "1-0-t", start_time := 10,
    end_time := some 100, in_progress := .jbool false, misc := [] }

/-- A closed segment of the same trace, running from 20 to 30: it starts
after `segA` but ends long before it. -/
def segB : TraceSegment :=
  { name := "b", segment_id := "b", trace_id := "1-0-t", start_time := 20,
    end_time := some 30, in_progress := .jbool false, misc := [] }

/-- A still-open segment of the same trace, starting at 30 with no
`end_time`. -/
def segOpen : TraceSegment :=
  { name := "c", segment_id := "c", trace_id := "1-0-t", start_time := 30,
    end_time := none, in_progress := .jbool true, misc := [] }

/-- C1 fails as stated: after inserting `segA` (10→100) and then `segB`
(20→30), the last segment by start date is `segB`, its `end_time` is
non-null, and the trace is finished — but the aggregate's `end_date` is
set to `segB`'s end date 30, not to the maximum end date across segments,
since `segA` is a member ending at 100 > 30. -/
theorem c1_counterexample :
    ((putSegment (putSegment newTraceItem segA) segB).segments.getLast?.map
        TraceSegment.end_time = some (some 30)) ∧
    (putSegment (putSegment newTraceItem segA) segB).finished = true ∧
    (putSegment (putSegment newTraceItem segA) segB).end_date = 30 ∧
    segA ∈ (putSegment (putSegment newTraceItem segA) segB).segments ∧
    segA.end_time = some 100 ∧ ¬((100 : ℚ) ≤ 30) := by
  decide

/-- C1 (amended): for every put into a trace aggregate with sorted
segments, if after the sorted insert the last element of `segments` has a
non-null `endTime`, then `finished` is set to true, `windowStart` is set
to the minimum `startDate` across all segments of the trace (the head of
the sorted sequence), and `windowEnd` is set to the `endDate` of that last
segment — not to the maximum `endDate` across segments. -/
theorem c1_put_finishing_window (t : TraceItem) (s tail : TraceSegment)
    (et : ℚ) (hsorted : segsSorted t.segments)
    (htail : (insortLeft t.segments s).getLast? = some tail)
    (hend : tail.end_time = some et) :
    (putSegment t s).finished = true ∧
    (putSegment t s).end_date = et ∧
    (putSegment t s).start_date ∈
      (putSegment t s).segments.map TraceSegment.start_time ∧
    ∀ x ∈ (putSegment t s).segments,
      (putSegment t s).start_date ≤ x.start_time := by
  have hne := insortLeft_ne_nil t.segments s
  have hsort := segsSorted_insortLeft s hsorted
  rw [putSegment_finish t s tail et htail hend]
  exact ⟨rfl, rfl, headStartDate_mem hne, headStartDate_le_of_sorted hsort⟩

theorem c1_put_finishing_window_witness :
    (putSegment newTraceItem segA).finished = true ∧
    (putSegment newTraceItem segA).end_date = 100 ∧
    (putSegment newTraceItem segA).start_date ∈
      (putSegment newTraceItem segA).segments.map TraceSegment.start_time ∧
    ∀ x ∈ (putSegment newTraceItem segA).segments,
      (putSegment newTraceItem segA).start_date ≤ x.start_time :=
  c1_put_finishing_window newTraceItem segA segA 100 List.Pairwise.nil
    (by decide) rfl

/-- C7: for every put whose resulting last segment (by start-date order)
has no `endTime`, the aggregate's `finished` flag, `windowStart` and
`windowEnd` are all left exactly as they were before the put; only the
sorted `segments` list changes.  In particular `finished` is never reset
from true to false, and the window of an already-finished trace is not
recomputed. -/
theorem c7_open_tail_frame (t : TraceItem) (s tail : TraceSegment)
    (htail : (insortLeft t.segments s).getLast? = some tail)
    (hend : tail.end_time = none) :
    (putSegment t s).finished = t.finished ∧
    (putSegment t s).start_date = t.start_date ∧
    (putSegment t s).end_date = t.end_date ∧
    (putSegment t s).segments = insortLeft t.segments s := by
  rw [putSegment_open t s tail htail hend]
  exact ⟨rfl, rfl, rfl, rfl⟩

theorem c7_open_tail_frame_witness :
    ((putSegment (putSegment newTraceItem segA) segOpen).finished =
        (putSegment newTraceItem segA).finished ∧
      (putSegment (putSegment newTraceItem segA) segOpen).start_date =
        (putSegment newTraceItem segA).start_date ∧
      (putSegment (putSegment newTraceItem segA) segOpen).end_date =
        (putSegment newTraceItem segA).end_date ∧
      (putSegment (putSegment newTraceItem segA) segOpen).segments =
        insortLeft (putSegment newTraceItem segA).segments segOpen) ∧
    (putSegment newTraceItem segA).finished = true :=
  ⟨c7_open_tail_frame (putSegment newTraceItem segA) segOpen segOpen
      (by decide) rfl,
    by decide⟩

/-! ## Parsing claims -/

theorem pyEqStrFalse_iff (v : JsonVal) :
    v.pyEqStrFalse = true ↔ v = .jstr "false" := by
  cases v <;> simp [JsonVal.pyEqStrFalse]

/-- A document with an `id` but no `name`/`trace_id`/`start_time`, whose
`in_progress` is the string `"false"` and whose `end_time` is absent. -/
def docNoName : SegmentDoc :=
  { id := some "abc", name := none, trace_id := none, start_time := none,
    end_time := none, in_progress := some (.jstr "false"), extra := [] }

/-- A complete document except that `end_time` is absent while
`in_progress` is the string `"false"`. -/
def docStrFalse : SegmentDoc :=
  { id := some "abc", name := some "n", trace_id := some "1-0-t",
    start_time := some 10, end_time := none,
    in_progress := some (.jstr "false"), extra := [] }

/-- The same document but with `in_progress` the boolean `false`. -/
def docBoolFalse : SegmentDoc :=
  { id := some "abc", name := some "n", trace_id := some "1-0-t",
    start_time := some 10, end_time := none,
    in_progress := some (.jbool false), extra := [] }

/-- A document carrying only an `id`. -/
def docOnlyId : SegmentDoc :=
  { id := some "abc", name := none, trace_id := none, start_time := none,
    end_time := none, in_progress := none, extra := [] }

/-- A document with no fields at all. -/
def docEmpty : SegmentDoc :=
  { id := none, name := none, trace_id := none, start_time := none,
    end_time := none, in_progress := none, extra := [] }

/-- C5 fails as stated over all documents that merely contain an `id`:
`docNoName` has `end_time` absent and `in_progress` equal to the string
`"false"`, yet parsing rejects it for its missing `name` with message
`'Missing segment ID'`, not with the missing-end-time rejection. -/
theorem c5_counterexample :
    ¬ (∀ d : SegmentDoc, d.id.isSome = true →
        (TraceSegment.from_dict d =
            .error ⟨d.id, "MissingParam", "Missing end_time"⟩ ↔
          (d.end_time = none ∧ d.in_progress = some (.jstr "false")))) := by
  intro h
  exact absurd ((h docNoName rfl).mpr ⟨rfl, rfl⟩) (by decide)

/-- C5 (amended): for every document containing `id`, `name`, `trace_id`
and `start_time`, parsing fails with the missing-end-time rejection (code
`MissingParam`, message `'Missing end_time'`, segment id attached) exactly
when `end_time` is absent and `in_progress` equals the JSON string
`"false"`; in particular a document whose `in_progress` is the boolean
`false` never triggers this rejection. -/
theorem c5_missing_end_time_iff (d : SegmentDoc) (sid : String)
    (hid : d.id = some sid) (hname : d.name.isSome = true)
    (htid : d.trace_id.isSome = true) (hst : d.start_time.isSome = true) :
    (TraceSegment.from_dict d =
        .error ⟨some sid, "MissingParam", "Missing end_time"⟩) ↔
      (d.end_time = none ∧ d.in_progress = some (.jstr "false")) := by
  obtain ⟨nm, hnm⟩ := Option.isSome_iff_exists.mp hname
  obtain ⟨ti, hti⟩ := Option.isSome_iff_exists.mp htid
  obtain ⟨stv, hstv⟩ := Option.isSome_iff_exists.mp hst
  cases het : d.end_time with
  | some v => simp [TraceSegment.from_dict, hid, hnm, hti, hstv, het]
  | none =>
    cases hip : d.in_progress with
    | none => simp [TraceSegment.from_dict, hid, hnm, hti, hstv, het, hip]
    | some v =>
      by_cases hv : v = JsonVal.jstr "false"
      · subst hv
        simp [TraceSegment.from_dict, hid, hnm, hti, hstv, het, hip,
          JsonVal.pyEqStrFalse]
      · have hfalse : v.pyEqStrFalse = false := by
          cases hb : v.pyEqStrFalse
          · rfl
          · exact absurd ((pyEqStrFalse_iff v).mp hb) hv
        simp [TraceSegment.from_dict, hid, hnm, hti, hstv, het, hip,
          hfalse, hv]

theorem c5_missing_end_time_iff_witness :
    TraceSegment.from_dict docStrFalse =
      .error ⟨some "abc", "MissingParam", "Missing end_time"⟩ ∧
    ¬ (TraceSegment.from_dict docBoolFalse =
        .error ⟨some "abc", "MissingParam", "Missing end_time"⟩) :=
  ⟨(c5_missing_end_time_iff docStrFalse "abc" rfl rfl rfl rfl).mpr ⟨rfl, rfl⟩,
    fun hcontra =>
      absurd
        ((c5_missing_end_time_iff docBoolFalse "abc" rfl rfl rfl rfl).mp
          hcontra)
        (by decide)⟩

/-- C9: parsing a document without `id` fails with a `MissingParam`
rejection carrying no segment id; parsing a document with `id` present but
`name`, `trace_id` or `start_time` absent fails with a `MissingParam`
rejection carrying the extracted segment id (both with the code's literal
message `'Missing segment ID'`). -/
theorem c9_missing_field (d : SegmentDoc) :
    (d.id = none →
      TraceSegment.from_dict d =
        .error ⟨none, "MissingParam", "Missing segment ID"⟩) ∧
    (∀ sid, d.id = some sid →
      (d.name = none ∨ d.trace_id = none ∨ d.start_time = none) →
      TraceSegment.from_dict d =
        .error ⟨some sid, "MissingParam", "Missing segment ID"⟩) := by
  constructor
  · intro hid
    simp [TraceSegment.from_dict, hid]
  · intro sid hid hmiss
    rcases hmiss with hm | hm | hm
    · simp [TraceSegment.from_dict, hid, hm]
    · cases hn : d.name with
      | none => simp [TraceSegment.from_dict, hid, hn]
      | some nm => simp [TraceSegment.from_dict, hid, hn, hm]
    · cases hn : d.name with
      | none => simp [TraceSegment.from_dict, hid, hn]
      | some nm =>
        cases ht : d.trace_id with
        | none => simp [TraceSegment.from_dict, hid, hn, ht]
        | some ti => simp [TraceSegment.from_dict, hid, hn, ht, hm]

theorem c9_missing_field_witness :
    TraceSegment.from_dict docOnlyId =
      .error ⟨some "abc", "MissingParam", "Missing segment ID"⟩ ∧
    TraceSegment.from_dict docEmpty =
      .error ⟨none, "MissingParam", "Missing segment ID"⟩ :=
  ⟨(c9_missing_field docOnlyId).2 "abc" rfl (Or.inl rfl),
    (c9_missing_field docEmpty).1 rfl⟩

/-! ## Summary-query claims -/

theorem summary_none_eq (c : SegmentCollection) (st et now : ℚ)
    (smp : Bool) :
    c.summary st et none smp now =
      .ok (c,
        { ApproximateTime := pyInt now
          TracesProcessedCount :=
            (c.traces.filterMap (SegmentCollection.summaryPart st et)).length
          TraceSummaries :=
            c.traces.filterMap (SegmentCollection.summaryPart st et) }) :=
  rfl

theorem summaryPart_eq_some_iff (st et : ℚ) (p : String × TraceItem)
    (s : TraceSummary) :
    SegmentCollection.summaryPart st et p = some s ↔
      (p.2.finished = true ∧ st < p.2.start_date ∧ p.2.end_date < et) ∧
      s = { Duration := pyInt (p.2.end_date - p.2.start_date)
            HasError := p.2.segments.any fun seg => seg.misc.contains "error"
            HasFault := p.2.segments.any fun seg => seg.misc.contains "fault"
            HasThrottle :=
              p.2.segments.any fun seg => seg.misc.contains "throttle"
            Id := p.1
            IsParital := false
            ResponseTime := 1 } := by
  rw [SegmentCollection.summaryPart]
  split
  · rename_i h
    rw [Bool.and_eq_true, Bool.and_eq_true] at h
    obtain ⟨⟨h1, h2⟩, h3⟩ := h
    rw [decide_eq_true_eq] at h2 h3
    simp [h1, h2, h3, eq_comm]
  · rename_i h
    constructor
    · intro hc; cases hc
    · rintro ⟨⟨h1, h2, h3⟩, -⟩
      exact absurd (by simp [h1, h2, h3]) h

/-- A finished trace aggregate with window 1 → 2 and no stored segments. -/
def tFin : TraceItem :=
  { start_date := 1, end_date := 2, finished := true, segments := [] }

/-- A store holding `tFin` under trace id `"t1"`. -/
def cFin : SegmentCollection := ⟨[("t1", tFin)]⟩

/-- C3 fails as stated for the *empty* (non-null) filter expression: with
`filterExpression = ""` the code raises (`if filter_expression is not
None`), so no result is returned at all, although the store holds a
finished trace strictly inside the query window that the claim says is
included. -/
theorem c3_counterexample :
    ¬ (∀ (c : SegmentCollection) (st et : ℚ) (fe : Option String) (now : ℚ)
        (tid : String) (t : TraceItem),
        (fe = none ∨ fe = some "") → (tid, t) ∈ c.traces →
        ((∃ c' res, c.summary st et fe false now = .ok (c', res) ∧
            ∃ s ∈ res.TraceSummaries, s.Id = tid) ↔
          (t.finished = true ∧ st < t.start_date ∧ t.end_date < et))) := by
  intro h
  have h2 := (h cFin 0 10 (some "") 0 "t1" tFin (Or.inr rfl)
      (by simp [cFin])).mpr ⟨rfl, by norm_num [tFin], by norm_num [tFin]⟩
  obtain ⟨c', res, heq, -⟩ := h2
  simp [SegmentCollection.summary] at heq

/-- C3 (amended): for every summarize call whose filter expression is
*null* (absent), the call returns a result over the unchanged store, and a
trace aggregate is included in it if and only if its `finished` flag is
true, the query's start bound is strictly less than its `windowStart`, and
its `windowEnd` is strictly less than the query's end bound — both
comparisons strict.  (With an empty-string filter expression the code
raises instead of returning a result.) -/
theorem c3_strict_window_filter (c : SegmentCollection) (st et now : ℚ)
    (tid : String) :
    ∃ res : SummaryResult,
      c.summary st et none false now = .ok (c, res) ∧
      ((∃ s ∈ res.TraceSummaries, s.Id = tid) ↔
        ∃ t : TraceItem, (tid, t) ∈ c.traces ∧ t.finished = true ∧
          st < t.start_date ∧ t.end_date < et) := by
  refine ⟨_, summary_none_eq c st et now false, ?_⟩
  constructor
  · rintro ⟨s, hs, hsid⟩
    rw [List.mem_filterMap] at hs
    obtain ⟨p, hp, hps⟩ := hs
    rw [summaryPart_eq_some_iff] at hps
    obtain ⟨⟨h1, h2, h3⟩, rfl⟩ := hps
    refine ⟨p.2, ?_, h1, h2, h3⟩
    have hfst : p.1 = tid := hsid
    rw [← hfst]
    exact hp
  · rintro ⟨t, ht, h1, h2, h3⟩
    refine ⟨_, List.mem_filterMap.mpr ⟨(tid, t), ht,
      (summaryPart_eq_some_iff st et (tid, t) _).mpr ⟨⟨h1, h2, h3⟩, rfl⟩⟩, rfl⟩

/-- C8: every summary entry returned by a null-filter summarize call
reports as its duration exactly the integer truncation toward zero —
floor for a nonnegative difference, ceiling for a negative one, never
rounding — of the seconds between its aggregate's `windowStart` and
`windowEnd`. -/
theorem c8_duration_trunc (c : SegmentCollection) (st et now : ℚ)
    (c' : SegmentCollection) (res : SummaryResult) (s : TraceSummary)
    (hok : c.summary st et none false now = .ok (c', res))
    (hs : s ∈ res.TraceSummaries) :
    ∃ t : TraceItem, (s.Id, t) ∈ c.traces ∧
      s.Duration = pyInt (t.end_date - t.start_date) ∧
      s.Duration =
        (if 0 ≤ t.end_date - t.start_date then ⌊t.end_date - t.start_date⌋
          else ⌈t.end_date - t.start_date⌉) := by
  rw [summary_none_eq] at hok
  obtain ⟨rfl, hres⟩ : c = c' ∧ _ = res := by simpa using hok
  rw [← hres] at hs
  rw [List.mem_filterMap] at hs
  obtain ⟨p, hp, hps⟩ := hs
  rw [summaryPart_eq_some_iff] at hps
  obtain ⟨-, rfl⟩ := hps
  exact ⟨p.2, by simpa using hp, rfl, rfl⟩

/-- A finished trace aggregate with window 100 → 163.9. -/
def t639 : TraceItem :=
  { start_date := 100, end_date := 1639 / 10, finished := true,
    segments := [] }

/-- A store holding `t639` under trace id `"t9"`. -/
def c639 : SegmentCollection := ⟨[("t9", t639)]⟩

/-- The summary entry produced for `t639`: duration 63, the truncation of
63.9 seconds. -/
def s639 : TraceSummary :=
  { Duration := 63, HasError := false, HasFault := false,
    HasThrottle := false, Id := "t9", IsParital := false,
    ResponseTime := 1 }

/-- The result of `summarize(50, 250)` over `c639` at `now = 0`. -/
def res639 : SummaryResult :=
  { ApproximateTime := 0, TracesProcessedCount := 1,
    TraceSummaries := [s639] }

theorem c8_duration_trunc_witness :
    ∃ t : TraceItem, (s639.Id, t) ∈ c639.traces ∧
      s639.Duration = pyInt (t.end_date - t.start_date) ∧
      s639.Duration =
        (if 0 ≤ t.end_date - t.start_date then ⌊t.end_date - t.start_date⌋
          else ⌈t.end_date - t.start_date⌉) :=
  c8_duration_trunc c639 50 250 0 c639 res639 s639
    (by
      rw [summary_none_eq]
      norm_num [List.filterMap_cons, SegmentCollection.summaryPart, pyInt,
        c639, t639, res639, s639])
    (by simp [res639])

/-- C6: a summarize call whose filter expression is a non-empty string
fails with the not-implemented internal error (code `InternalFailure`,
HTTP status 500) instead of returning summaries. -/
theorem c6_filter_unsupported (c : SegmentCollection) (st et : ℚ)
    (fe : String) (smp : Bool) (now : ℚ) (hfe : fe ≠ "") :
    c.summary st et (some fe) smp now =
      .error ⟨"Not implemented yet - moto", "InternalFailure", 500⟩ := by
  rw [SegmentCollection.summary]
  rfl

theorem c6_filter_unsupported_witness :
    SegmentCollection.summary ⟨[]⟩ 0 10 (some "annotation.x = 1") false 0 =
      .error ⟨"Not implemented yet - moto", "InternalFailure", 500⟩ :=
  c6_filter_unsupported ⟨[]⟩ 0 10 "annotation.x = 1" false 0 (by decide)

/-- C10: a summarize call that returns a result leaves the trace store
exactly as it was: the collection threaded out equals the one threaded
in (the code only reads `self._segments`). -/
theorem c10_summary_pure (c : SegmentCollection) (st et : ℚ)
    (fe : Option String) (smp : Bool) (now : ℚ) (c' : SegmentCollection)
    (res : SummaryResult)
    (hok : c.summary st et fe smp now = .ok (c', res)) : c' = c := by
  cases fe with
  | some f => simp [SegmentCollection.summary] at hok
  | none =>
    rw [summary_none_eq] at hok
    obtain ⟨rfl, -⟩ : c = c' ∧ _ = res := by simpa using hok
    rfl

theorem c10_summary_pure_witness : c639 = c639 :=
  c10_summary_pure c639 50 250 none false 0 c639 res639
    (by
      rw [summary_none_eq]
      norm_num [List.filterMap_cons, SegmentCollection.summaryPart, pyInt,
        c639, t639, res639, s639])

/-! ## Ingestion-batch claim -/

/-- The rejection record a single raw document produces, if any.  It
depends only on the document, not on the store: every failure in
`process_segment` happens before the store step (`json.loads` or
`TraceSegment.from_dict`), and the store step itself never fails. -/
def docRejection (doc : RawDoc) : Option BadSegmentException :=
  match parseSegmentDoc doc with
  | .error e => some e
  | .ok _ => none

/-- The store effect of a single raw document: a successful document is
committed with `put_segment`; a failing one leaves the store unchanged. -/
def commitDoc (c : SegmentCollection) (doc : RawDoc) : SegmentCollection :=
  match parseSegmentDoc doc with
  | .error _ => c
  | .ok seg => c.put_segment seg

theorem ingest_loop (docs : List RawDoc) :
    ∀ (c : SegmentCollection) (acc : List BadSegmentException),
      docs.foldl ingestStep (c, acc) =
        (docs.foldl commitDoc c, acc ++ docs.filterMap docRejection) := by
  induction docs with
  | nil => intro c acc; simp
  | cons d ds ih =>
    intro c acc
    rw [List.foldl_cons, List.foldl_cons, List.filterMap_cons]
    cases hp : parseSegmentDoc d with
    | ok seg =>
      have hstep : ingestStep (c, acc) d = (c.put_segment seg, acc) := by
        simp [ingestStep, processSegment, hp]
      have hcommit : commitDoc c d = c.put_segment seg := by
        simp [commitDoc, hp]
      have hrej : docRejection d = none := by
        simp [docRejection, hp]
      rw [hstep, ih _ _, hcommit, hrej]
    | error e =>
      have hstep : ingestStep (c, acc) d = (c, acc ++ [e]) := by
        simp [ingestStep, processSegment, hp]
      have hcommit : commitDoc c d = c := by
        simp [commitDoc, hp]
      have hrej : docRejection d = some e := by
        simp [docRejection, hp]
      rw [hstep, ih _ _, hcommit, hrej]
      simp

/-- C4: the batch loop processes the documents in order and decomposes into
two independent parts: the final store is the left fold of the per-document
commit (successes are stored, failures leave the store untouched and never
abort the batch), and the returned rejection list is exactly the in-order
list of per-document rejection records — one per failed document, none for
successes. -/
theorem c4_batch_partial_failure (c : SegmentCollection)
    (docs : List RawDoc) :
    ingest c docs = (docs.foldl commitDoc c, docs.filterMap docRejection) := by
  rw [ingest, ingest_loop]
  simp
